import Mathlib

/-!
Shallow embedding of the tool-calling agent with long-term memory
(`tool_definitions.py`, `src/tools/tool_registry.py`, `src/lang_graph/nodes.py`,
`src/lang_graph/memory.py`, `run_example.py`), together with theorems
settling the specification claims about it.

Conventions of the embedding:
* Python dict values that flow through the program are modelled by the
  inductive type `Val` (JSON-like structured values).  `json.dumps`
  serialization is faithful on these values, so a serialized observation is
  modelled by the structured value itself.
* Python exceptions are modelled with `Except String`; a function that can
  raise returns `Except`, a function that cannot returns its value directly.
* External capabilities (the OpenAI chat completion, the ChromaDB similarity
  ranking, the wall clock) are parameters of the corresponding functions.
  The ChromaDB collection itself is modelled as a list of records, with
  `add` / `get` / `delete` / `query` following the documented contract the
  code relies on (metadata `where` filtering, at most `n_results` returned).
* Python `list.sort` is a stable sort by key; it is modelled by
  `List.insertionSort` with the non-strict key preorder, which is also
  stable, and two stable sorts under the same total preorder agree.
-/

/-- JSON-like values: the structured dicts passed around by the program. -/
inductive Val : Type where
  | vNull : Val
  | vBool : Bool → Val
  | vInt : Int → Val
  | vStr : String → Val
  | vList : List Val → Val
  | vDict : List (String × Val) → Val

/-- `d.get(k)` on a Python dict modelled as an association list. -/
def dictGet (d : List (String × Val)) (k : String) : Option Val :=
  (d.find? (fun p => p.1 == k)).map Prod.snd

/-- `d.get(k, dflt)` on a Python dict. -/
def dictGetD (d : List (String × Val)) (k : String) (dflt : Val) : Val :=
  (dictGet d k).getD dflt

/-- Truthiness of a Python value, as used by `if decision.get("should_write"):`. -/
def pyTruthy : Option Val → Bool
  | none => false
  | some Val.vNull => false
  | some (Val.vBool b) => b
  | some (Val.vInt n) => !(n == 0)
  | some (Val.vStr s) => !(s == "")
  | some (Val.vList l) => !l.isEmpty
  | some (Val.vDict d) => !d.isEmpty

-- ============================================================
-- Tool Dispatch Layer (`src/tools/tool_registry.py`)
-- ============================================================

/-- Tool arguments: the structured argument record of a call. -/
abbrev Args := List (String × Val)

/-- The observable behaviors of a Python tool handler
(`lambda args: tool(Model(**args))`): it returns a structured result,
raises `pydantic.ValidationError` while validating the arguments against the
declared input schema, or raises some other exception at runtime. -/
inductive HandlerOutcome : Type where
  | ok : Val → HandlerOutcome
  | vErr : List Val → HandlerOutcome
  | rErr : String → HandlerOutcome

/-- A registered tool: name plus handler (`ToolSpec` in `tool_definitions.py`;
description and input schema are carried by the handler model). -/
structure ToolSpecM : Type where
  name : String
  handler : Args → HandlerOutcome

/-- The registry contents: `ToolRegistry._tools` in registration order. -/
abbrev Registry := List ToolSpecM

/-- `ToolRegistry.get`: `None` models the raised `KeyError` for unknown names. -/
def registryGet (reg : Registry) (name : String) : Option ToolSpecM :=
  reg.find? (fun s => s.name == name)

/-- `ToolRegistry.call`.  The lookup happens outside the `try`, so an unknown
name raises (`Except.error`); a known name never raises: a
`pydantic.ValidationError` from the handler is normalized to a
`validation_error` dict, any other exception to a `runtime_error` dict, and a
normal handler result is returned unchanged. -/
def registryCall (reg : Registry) (name : String) (args : Args) : Except String Val :=
  match registryGet reg name with
  | none => Except.error ("Unknown tool: " ++ name)
  | some spec =>
    match spec.handler args with
    | HandlerOutcome.ok v => Except.ok v
    | HandlerOutcome.vErr ds =>
      Except.ok (Val.vDict [("error", Val.vStr "validation_error"), ("details", Val.vList ds)])
    | HandlerOutcome.rErr m =>
      Except.ok (Val.vDict [("error", Val.vStr "runtime_error"), ("details", Val.vStr m)])

-- ============================================================
-- Long-Term Memory Store (`tool_definitions.py`)
-- ============================================================

/-- A record of the ChromaDB `memory_db` collection: id, document text and
metadata.  The embedding vector is opaque and owned by the store; similarity
ranking over documents is an external capability (`score` parameter of
`chromaQuery`). -/
structure MemRecord : Type where
  id : String
  document : String
  metadata : List (String × Val)

/-- The `where={"memory_type": t}` filter of a ChromaDB query: a record
matches when its metadata holds exactly that string value under
`memory_type`. -/
def whereMatch : Option String → MemRecord → Bool
  | none, _ => true
  | some t, r =>
    match dictGet r.metadata "memory_type" with
    | some (Val.vStr s) => s == t
    | _ => false

/-- Descending-similarity preorder used to rank query results. -/
def scoreGe (score : String → String → Int) (q : String) (a b : MemRecord) : Prop :=
  score q b.document ≤ score q a.document

instance scoreGeDec (score : String → String → Int) (q : String) :
    DecidableRel (scoreGe score q) :=
  fun _ _ => inferInstanceAs (Decidable (_ ≤ _))

instance scoreGeTotal (score : String → String → Int) (q : String) :
    IsTotal MemRecord (scoreGe score q) :=
  ⟨fun a b => le_total (score q b.document) (score q a.document)⟩

instance scoreGeTrans (score : String → String → Int) (q : String) :
    IsTrans MemRecord (scoreGe score q) :=
  ⟨fun _ _ _ h1 h2 => le_trans h2 h1⟩

/-- `collection.query(query_texts=[q], n_results=n, where=w)`: the ChromaDB
contract the code relies on — among the records matching the `where` filter,
return at most `n`, ordered by descending similarity of the opaque
embedding; `score` is that opaque similarity capability. -/
def chromaQuery (score : String → String → Int) (store : List MemRecord)
    (q : String) (n : Nat) (w : Option String) : List MemRecord :=
  (List.insertionSort (scoreGe score q) (store.filter (whereMatch w))).take n

/-- One formatted entry of `read_memory`'s results list
(`tool_definitions.py`, lines 170-178). -/
def formatMemory (r : MemRecord) : Val :=
  Val.vDict
    [("content", Val.vStr r.document),
     ("memory_type", dictGetD r.metadata "memory_type" (Val.vStr "unknown")),
     ("importance", dictGetD r.metadata "importance" (Val.vInt 0)),
     ("tags", dictGetD r.metadata "tags" (Val.vList [])),
     ("created_at", dictGetD r.metadata "created_at" (Val.vStr "unknown"))]

/-- `read_memory` (`tool_definitions.py`, lines 151-182), over the store
contents and the opaque similarity capability. -/
def read_memory (score : String → String → Int) (store : List MemRecord)
    (query : String) (memory_type : String) (top_k : Nat) : Val :=
  let w : Option String := if memory_type == "all" then none else some memory_type
  let found := chromaQuery score store query top_k w
  if found.isEmpty then
    Val.vDict [("results", Val.vList []), ("message", Val.vStr "관련 기억을 찾지 못했습니다.")]
  else
    Val.vDict [("results", Val.vList (found.map formatMemory)),
               ("count", Val.vInt found.length)]

/-- The `"results"` list of a `read_memory` return value. -/
def readResults (v : Val) : List Val :=
  match v with
  | Val.vDict d =>
    match dictGet d "results" with
    | some (Val.vList l) => l
    | _ => []
  | _ => []

/-- The `"error"` entry of a returned dict (`none` on non-error results). -/
def errorEntry (v : Val) : Option Val :=
  match v with
  | Val.vDict d => dictGet d "error"
  | _ => none

/-- `memory_id = f"mem_{datetime.now().timestamp()}"`
(`tool_definitions.py`, line 195); `ts` is the serialized clock reading. -/
def memory_id (ts : String) : String :=
  "mem_" ++ ts

/-- The metadata dict built by `write_memory` (lines 198-203): ChromaDB does
not accept lists, so the tag list is stored as one comma-joined string. -/
def writeMetadata (memory_type : String) (importance : Int) (tags : List String)
    (tsIso : String) : List (String × Val) :=
  [("memory_type", Val.vStr memory_type),
   ("importance", Val.vInt importance),
   ("tags", Val.vStr (String.intercalate "," tags)),
   ("created_at", Val.vStr tsIso)]

/-- `write_memory` (`tool_definitions.py`, lines 190-219).  `tsId` and `tsIso`
are the two wall-clock readings (`datetime.now().timestamp()` serialized, and
`datetime.now().isoformat()`); the record is added to the store and the
4-field status dict is returned. -/
def write_memory (store : List MemRecord) (content : String) (memory_type : String)
    (importance : Int) (tags : List String) (tsId : String) (tsIso : String) :
    List MemRecord × Val :=
  let mid := memory_id tsId
  let meta := writeMetadata memory_type importance tags tsIso
  (store ++ [⟨mid, content, meta⟩],
   Val.vDict [("status", Val.vStr "saved"),
              ("memory_id", Val.vStr mid),
              ("content", Val.vStr content),
              ("memory_type", Val.vStr memory_type)])

-- ============================================================
-- Claim C4: ToolRegistry.call error contract
-- ============================================================

/-- C4: dispatch with an unknown name raises a lookup error; with a known
name it never raises: schema-validation failure yields the structured
`validation_error` dict, a handler runtime failure yields the
`runtime_error` dict, and otherwise the handler result is returned
unchanged. -/
theorem C4_registry_call_contract (reg : Registry) (name : String) (args : Args) :
    (registryGet reg name = none →
      registryCall reg name args = Except.error ("Unknown tool: " ++ name)) ∧
    (∀ spec, registryGet reg name = some spec →
      (∃ v, registryCall reg name args = Except.ok v) ∧
      (∀ ds, spec.handler args = HandlerOutcome.vErr ds →
        registryCall reg name args =
          Except.ok (Val.vDict [("error", Val.vStr "validation_error"),
                                ("details", Val.vList ds)])) ∧
      (∀ m, spec.handler args = HandlerOutcome.rErr m →
        registryCall reg name args =
          Except.ok (Val.vDict [("error", Val.vStr "runtime_error"),
                                ("details", Val.vStr m)])) ∧
      (∀ v, spec.handler args = HandlerOutcome.ok v →
        registryCall reg name args = Except.ok v)) := by
  constructor
  · intro h
    unfold registryCall
    rw [h]
  · intro spec hspec
    have hcall : registryCall reg name args =
        match spec.handler args with
        | HandlerOutcome.ok v => Except.ok v
        | HandlerOutcome.vErr ds =>
          Except.ok (Val.vDict [("error", Val.vStr "validation_error"),
                                ("details", Val.vList ds)])
        | HandlerOutcome.rErr m =>
          Except.ok (Val.vDict [("error", Val.vStr "runtime_error"),
                                ("details", Val.vStr m)]) := by
      unfold registryCall
      rw [hspec]
    refine ⟨?_, ?_, ?_, ?_⟩
    · rcases h : spec.handler args with v | ds | m
      · exact ⟨v, by rw [hcall, h]⟩
      · exact ⟨_, by rw [hcall, h]⟩
      · exact ⟨_, by rw [hcall, h]⟩
    · intro ds h
      rw [hcall, h]
    · intro m h
      rw [hcall, h]
    · intro v h
      rw [hcall, h]

/-- A concrete one-tool registry used to instantiate theorems: the handler
validates that the single required string field `timezone` is present
(the `GetTimeInput` schema) and reports a runtime failure for the reserved
timezone name, mirroring the raise inside `get_time`. -/
def sampleRegistry : Registry :=
  [⟨"get_time", fun args =>
    match dictGet args "timezone" with
    | some (Val.vStr s) =>
      if s == "bad/zone" then HandlerOutcome.rErr "Invalid timezone: bad/zone"
      else HandlerOutcome.ok (Val.vDict [("timezone", Val.vStr s)])
    | _ => HandlerOutcome.vErr [Val.vStr "Field required: timezone"]⟩]

/-- Witness for C4 at a concrete registry and concrete argument records. -/
theorem C4_registry_call_contract_witness :
    registryCall sampleRegistry "nope" [] = Except.error ("Unknown tool: " ++ "nope") ∧
    registryCall sampleRegistry "get_time" [] =
      Except.ok (Val.vDict [("error", Val.vStr "validation_error"),
                            ("details", Val.vList [Val.vStr "Field required: timezone"])]) ∧
    registryCall sampleRegistry "get_time" [("timezone", Val.vStr "bad/zone")] =
      Except.ok (Val.vDict [("error", Val.vStr "runtime_error"),
                            ("details", Val.vStr "Invalid timezone: bad/zone")]) ∧
    registryCall sampleRegistry "get_time" [("timezone", Val.vStr "Asia/Seoul")] =
      Except.ok (Val.vDict [("timezone", Val.vStr "Asia/Seoul")]) := by
  refine ⟨?_, ?_, ?_, ?_⟩
  · exact (C4_registry_call_contract sampleRegistry "nope" []).1 rfl
  · exact ((C4_registry_call_contract sampleRegistry "get_time" []).2
      ⟨"get_time", (sampleRegistry.get ⟨0, by decide⟩).handler⟩ rfl).2.1
      [Val.vStr "Field required: timezone"] rfl
  · exact ((C4_registry_call_contract sampleRegistry "get_time"
      [("timezone", Val.vStr "bad/zone")]).2
      ⟨"get_time", (sampleRegistry.get ⟨0, by decide⟩).handler⟩ rfl).2.2.1
      "Invalid timezone: bad/zone" rfl
  · exact ((C4_registry_call_contract sampleRegistry "get_time"
      [("timezone", Val.vStr "Asia/Seoul")]).2
      ⟨"get_time", (sampleRegistry.get ⟨0, by decide⟩).handler⟩ rfl).2.2.2
      (Val.vDict [("timezone", Val.vStr "Asia/Seoul")]) rfl

-- ============================================================
-- Lemmas about the memory read path
-- ============================================================

/-- Every record returned by the modelled ChromaDB query is a store record
matching the `where` filter. -/
theorem chromaQuery_mem {score : String → String → Int} {store : List MemRecord}
    {q : String} {n : Nat} {w : Option String} {r : MemRecord}
    (h : r ∈ chromaQuery score store q n w) : r ∈ store ∧ whereMatch w r = true := by
  unfold chromaQuery at h
  have h1 := List.mem_of_mem_take h
  have h2 := (List.perm_insertionSort (scoreGe score q) _).mem_iff.mp h1
  exact List.mem_filter.mp h2

/-- The query returns at most `n` records. -/
theorem chromaQuery_length_le (score : String → String → Int) (store : List MemRecord)
    (q : String) (n : Nat) (w : Option String) :
    (chromaQuery score store q n w).length ≤ n := by
  unfold chromaQuery
  exact List.length_take_le n _

/-- A `where={"memory_type": t}` match pins the stored `memory_type` value. -/
theorem whereMatch_some_eq {t : String} {r : MemRecord}
    (h : whereMatch (some t) r = true) :
    dictGet r.metadata "memory_type" = some (Val.vStr t) := by
  have h2 := h
  simp only [whereMatch] at h2
  rcases hm : dictGet r.metadata "memory_type" with _ | v
  · rw [hm] at h2
    simp at h2
  · cases v with
    | vStr s =>
      rw [hm] at h2
      simp at h2
      rw [h2]
    | vNull => rw [hm] at h2; simp at h2
    | vBool b => rw [hm] at h2; simp at h2
    | vInt n => rw [hm] at h2; simp at h2
    | vList l => rw [hm] at h2; simp at h2
    | vDict d => rw [hm] at h2; simp at h2

/-- Every entry of the results list of `read_memory` is the formatted image
of some record returned by the underlying query. -/
theorem read_memory_results (score : String → String → Int) (st : List MemRecord)
    (q : String) (mt : String) (k : Nat) :
    ∀ v ∈ readResults (read_memory score st q mt k),
      ∃ r, r ∈ chromaQuery score st q k (if mt == "all" then none else some mt) ∧
        v = formatMemory r := by
  intro v hv
  unfold read_memory at hv
  set found := chromaQuery score st q k (if mt == "all" then none else some mt) with hfound
  by_cases he : found.isEmpty
  · rw [if_pos he] at hv
    simp [readResults, dictGet] at hv
  · rw [if_neg he] at hv
    have : readResults (Val.vDict [("results", Val.vList (found.map formatMemory)),
        ("count", Val.vInt found.length)]) = found.map formatMemory := rfl
    rw [this] at hv
    rcases List.mem_map.mp hv with ⟨r, hr, hfmt⟩
    exact ⟨r, hr, hfmt.symm⟩

/-- `read_memory` returns at most `top_k` results and its return dict never
carries an `error` key. -/
theorem read_memory_shape (score : String → String → Int) (st : List MemRecord)
    (q : String) (mt : String) (k : Nat) :
    (readResults (read_memory score st q mt k)).length ≤ k ∧
    errorEntry (read_memory score st q mt k) = none := by
  unfold read_memory
  set found := chromaQuery score st q k (if mt == "all" then none else some mt) with hfound
  by_cases he : found.isEmpty
  · rw [if_pos he]
    exact ⟨Nat.zero_le k, rfl⟩
  · rw [if_neg he]
    constructor
    · have : readResults (Val.vDict [("results", Val.vList (found.map formatMemory)),
          ("count", Val.vInt found.length)]) = found.map formatMemory := rfl
      rw [this, List.length_map]
      rw [hfound]
      exact chromaQuery_length_le score st q k _
    · rfl

-- ============================================================
-- Claim C5: read_memory respects the memory_type filter
-- ============================================================

/-- C5: with any filter other than `"all"`, `read_memory` only returns
records whose stored `memory_type` equals the filter, returns at most
`top_k` of them, and an empty match set is a normal non-error result. -/
theorem C5_read_memory_filter (score : String → String → Int) (st : List MemRecord)
    (q : String) (mt : String) (k : Nat) (hmt : mt ≠ "all") :
    (∀ v ∈ readResults (read_memory score st q mt k),
      ∃ r, r ∈ st ∧ v = formatMemory r ∧
        dictGet r.metadata "memory_type" = some (Val.vStr mt)) ∧
    (readResults (read_memory score st q mt k)).length ≤ k ∧
    errorEntry (read_memory score st q mt k) = none := by
  have hif : (if mt == "all" then (none : Option String) else some mt) = some mt := by
    rw [if_neg]
    simpa using hmt
  refine ⟨?_, (read_memory_shape score st q mt k).1, (read_memory_shape score st q mt k).2⟩
  intro v hv
  rcases read_memory_results score st q mt k v hv with ⟨r, hr, hfmt⟩
  rw [hif] at hr
  rcases chromaQuery_mem hr with ⟨hst, hwm⟩
  exact ⟨r, hst, hfmt, whereMatch_some_eq hwm⟩

/-- A tiny concrete store: one profile record and one episodic record. -/
def sampleStore : List MemRecord :=
  [⟨"mem_1.0", "선호 언어: Python", [("memory_type", Val.vStr "profile"),
      ("importance", Val.vInt 5), ("tags", Val.vStr "lang_pref"),
      ("created_at", Val.vStr "2024-01-01T00:00:00")]⟩,
   ⟨"mem_2.0", "RAG 코드 작업", [("memory_type", Val.vStr "episodic"),
      ("importance", Val.vInt 3), ("tags", Val.vStr ""),
      ("created_at", Val.vStr "2024-01-02T00:00:00")]⟩]

/-- Witness for C5 at a concrete store, query and filter. -/
theorem C5_read_memory_filter_witness :
    (readResults (read_memory (fun _ _ => 0) sampleStore "선호 언어" "profile" 5)).length ≤ 5 ∧
    errorEntry (read_memory (fun _ _ => 0) sampleStore "선호 언어" "profile" 5) = none := by
  exact ⟨(C5_read_memory_filter (fun _ _ => 0) sampleStore "선호 언어" "profile" 5
      (by decide)).2.1,
    (C5_read_memory_filter (fun _ _ => 0) sampleStore "선호 언어" "profile" 5
      (by decide)).2.2⟩

-- ============================================================
-- Claim C9: write_memory ids and return shape
-- ============================================================

/-- The `memory_id` field of a `write_memory` return dict. -/
def returnedId (v : Val) : Option Val :=
  match v with
  | Val.vDict d => dictGet d "memory_id"
  | _ => none

/-- Two generated ids are equal exactly when the serialized clock readings
are equal: the `mem_` prefix is cancellable. -/
theorem memory_id_inj (a b : String) : memory_id a = memory_id b ↔ a = b := by
  constructor
  · intro h
    unfold memory_id at h
    have hd := congrArg String.data h
    simp only [String.data_append] at hd
    exact String.ext (List.append_cancel_left hd)
  · intro h
    rw [h]

/-- Lexicographic order on character lists cancels a common head. -/
theorem list_char_cons_lt_iff (c : Char) (l1 l2 : List Char) :
    (c :: l1 < c :: l2) ↔ (l1 < l2) := by
  constructor
  · intro h
    cases h with
    | cons h2 => exact h2
    | rel h2 => exact absurd h2 (lt_irrefl c)
  · intro h
    exact List.Lex.cons h

/-- Generated ids compare (as Python strings, i.e. lexicographically by code
point) exactly as the serialized clock readings compare. -/
theorem memory_id_lt_iff (a b : String) : memory_id a < memory_id b ↔ a < b := by
  unfold memory_id
  rw [String.lt_iff_toList_lt, String.lt_iff_toList_lt]
  have ha : ("mem_" ++ a).toList = 'm' :: 'e' :: 'm' :: '_' :: a.toList := by
    show ("mem_" ++ a).data = 'm' :: 'e' :: 'm' :: '_' :: a.data
    rw [String.data_append]
    rfl
  have hb : ("mem_" ++ b).toList = 'm' :: 'e' :: 'm' :: '_' :: b.toList := by
    show ("mem_" ++ b).data = 'm' :: 'e' :: 'm' :: '_' :: b.data
    rw [String.data_append]
    rfl
  rw [ha, hb, list_char_cons_lt_iff, list_char_cons_lt_iff, list_char_cons_lt_iff,
    list_char_cons_lt_iff]

/-- Counterexample to C9 as stated.  First conjunct: two distinct
invocations of `write_memory` (different content, memory type and
importance) whose `datetime.now().timestamp()` readings fall in the same
microsecond produce the **same** memory id, so the generated id is not
globally unique.  Second conjunct: of two ids generated at clock readings
`999.0` and then `1000.0` (so the second is generated later), the later id
compares **smaller** in string order, so ids are not comparable in
generation order. -/
theorem C9_write_memory_id_cex :
    returnedId (write_memory [] "선호 언어: Python" "profile" 5 []
        "1700000000.0" "2023-11-14T22:13:20").2 =
      returnedId (write_memory [] "RAG 코드 작업" "episodic" 1 []
        "1700000000.0" "2023-11-14T22:13:20").2 ∧
    memory_id "1000.0" < memory_id "999.0" := by
  constructor
  · rfl
  · rw [String.lt_iff_toList_lt]
    decide

/-- C9 as amended: `write_memory` persists the record and returns exactly
the `{status: saved, memory_id, content, memory_type}` dict with the
supplied content and memory type; the generated ids are distinct exactly
when the serialized clock readings are distinct, and their string order is
the string order of the readings (not, in general, generation order). -/
theorem C9_write_memory_amended (store : List MemRecord) (content mt : String)
    (imp : Int) (tags : List String) (tsId tsIso ts1 ts2 : String) :
    (write_memory store content mt imp tags tsId tsIso).2 =
      Val.vDict [("status", Val.vStr "saved"),
                 ("memory_id", Val.vStr (memory_id tsId)),
                 ("content", Val.vStr content),
                 ("memory_type", Val.vStr mt)] ∧
    (write_memory store content mt imp tags tsId tsIso).1 =
      store ++ [⟨memory_id tsId, content, writeMetadata mt imp tags tsIso⟩] ∧
    (ts1 ≠ ts2 → memory_id ts1 ≠ memory_id ts2) ∧
    (memory_id ts1 < memory_id ts2 ↔ ts1 < ts2) := by
  refine ⟨rfl, rfl, ?_, memory_id_lt_iff ts1 ts2⟩
  intro hne h
  exact hne ((memory_id_inj ts1 ts2).mp h)

/-- Witness for the amended C9 at concrete clock readings. -/
theorem C9_write_memory_amended_witness :
    memory_id "1700000000.1" ≠ memory_id "1700000000.2" := by
  exact (C9_write_memory_amended [] "c" "profile" 3 [] "t" "t"
    "1700000000.1" "1700000000.2").2.2.1 (by decide)

-- ============================================================
-- Claim C10: tags do not round-trip as a list
-- ============================================================

/-- The `tags` field of a formatted `read_memory` result entry. -/
def tagsEntry (v : Val) : Option Val :=
  match v with
  | Val.vDict d => dictGet d "tags"
  | _ => none

/-- C10: `write_memory` stores the tag list as the single comma-joined
string, a read that returns the record reports `tags` as that string (not
as a list), and only a record whose metadata lacks a `tags` entry is
reported with the list default `[]`. -/
theorem C10_tags_no_roundtrip (score : String → String → Int)
    (store : List MemRecord) (content mt : String) (imp : Int)
    (tags : List String) (tsId tsIso : String) :
    (write_memory store content mt imp tags tsId tsIso).1 =
      store ++ [⟨memory_id tsId, content, writeMetadata mt imp tags tsIso⟩] ∧
    dictGet (writeMetadata mt imp tags tsIso) "tags" =
      some (Val.vStr (String.intercalate "," tags)) ∧
    tagsEntry (formatMemory ⟨memory_id tsId, content, writeMetadata mt imp tags tsIso⟩) =
      some (Val.vStr (String.intercalate "," tags)) ∧
    (∀ l : List Val, Val.vStr (String.intercalate "," tags) ≠ Val.vList l) ∧
    (∀ (st : List MemRecord) (q mt2 : String) (k : Nat),
      ∀ v ∈ readResults (read_memory score st q mt2 k),
        ∃ r, r ∈ st ∧ v = formatMemory r) ∧
    (∀ r2 : MemRecord, dictGet r2.metadata "tags" = none →
      tagsEntry (formatMemory r2) = some (Val.vList [])) := by
  refine ⟨rfl, rfl, rfl, ?_, ?_, ?_⟩
  · intro l h
    cases h
  · intro st q mt2 k v hv
    rcases read_memory_results score st q mt2 k v hv with ⟨r, hr, hfmt⟩
    exact ⟨r, (chromaQuery_mem hr).1, hfmt⟩
  · intro r2 h
    have : tagsEntry (formatMemory r2) = some (dictGetD r2.metadata "tags" (Val.vList [])) := rfl
    rw [this]
    unfold dictGetD
    rw [h]
    rfl

/-- Witness for C10: a record lacking a `tags` metadata entry is reported
with the list default. -/
theorem C10_tags_no_roundtrip_witness :
    tagsEntry (formatMemory ⟨"mem_1.0", "doc", []⟩) = some (Val.vList []) := by
  exact (C10_tags_no_roundtrip (fun _ _ => 0) [] "c" "profile" 3 ["a", "b"]
    "1.0" "t").2.2.2.2.2 ⟨"mem_1.0", "doc", []⟩ rfl

-- ============================================================
-- Eviction (`cleanup_memories`, `tool_definitions.py` lines 221-248)
-- ============================================================

/-- One entry of the `memory_info` list built by `cleanup_memories`:
the record id together with `meta.get("importance", 3)` and
`meta.get("created_at", "")`. -/
structure MemInfo : Type where
  id : String
  importance : Int
  created_at : String
deriving DecidableEq

/-- `meta.get("importance", 3)`; all stored importances are ints. -/
def recImportance (m : List (String × Val)) : Int :=
  match dictGet m "importance" with
  | some (Val.vInt n) => n
  | _ => 3

/-- `meta.get("created_at", "")`; all stored timestamps are strings. -/
def recCreated (m : List (String × Val)) : String :=
  match dictGet m "created_at" with
  | some (Val.vStr s) => s
  | _ => ""

/-- The info entry of one record. -/
def memInfo (r : MemRecord) : MemInfo :=
  ⟨r.id, recImportance r.metadata, recCreated r.metadata⟩

/-- The eviction sort key of a record: `(importance, created_at)`. -/
def recKey (r : MemRecord) : Int × String :=
  (recImportance r.metadata, recCreated r.metadata)

/-- Python tuple comparison of `(importance, created_at)` keys, non-strict;
strings compare lexicographically by code point (modelled on `.data`). -/
def infoLe (a b : MemInfo) : Prop :=
  a.importance < b.importance ∨
    (a.importance = b.importance ∧ a.created_at.data ≤ b.created_at.data)

instance infoLeDec : DecidableRel infoLe :=
  fun a b => by unfold infoLe; infer_instance

instance infoLeTotal : IsTotal MemInfo infoLe :=
  ⟨by
    intro a b
    unfold infoLe
    rcases lt_trichotomy a.importance b.importance with h | h | h
    · exact Or.inl (Or.inl h)
    · rcases le_total a.created_at.data b.created_at.data with h2 | h2
      · exact Or.inl (Or.inr ⟨h, h2⟩)
      · exact Or.inr (Or.inr ⟨h.symm, h2⟩)
    · exact Or.inr (Or.inl h)⟩

instance infoLeTrans : IsTrans MemInfo infoLe :=
  ⟨by
    intro a b c hab hbc
    unfold infoLe at hab hbc ⊢
    rcases hab with h1 | ⟨h1, h1s⟩
    · rcases hbc with h2 | ⟨h2, _⟩
      · exact Or.inl (lt_trans h1 h2)
      · exact Or.inl (h2 ▸ h1)
    · rcases hbc with h2 | ⟨h2, h2s⟩
      · exact Or.inl (h1 ▸ h2)
      · exact Or.inr ⟨h1.trans h2, le_trans h1s h2s⟩⟩

/-- Strict comparison of `(importance, created_at)` keys. -/
def keyLt (x y : Int × String) : Prop :=
  x.1 < y.1 ∨ (x.1 = y.1 ∧ x.2.data < y.2.data)

/-- `cleanup_memories(max_count)`: a no-op when the store fits; otherwise
sort the info entries ascending by `(importance, created_at)` with Python's
stable sort (modelled by the stable `insertionSort`) and delete the records
whose ids head the sorted list, one per unit of excess. -/
def cleanup_memories (maxCount : Nat) (store : List MemRecord) : List MemRecord :=
  if store.length ≤ maxCount then store
  else
    let sortedInfo := List.insertionSort infoLe (store.map memInfo)
    let deleteIds := (sortedInfo.take (store.length - maxCount)).map MemInfo.id
    store.filter (fun r => decide (¬ r.id ∈ deleteIds))

/-- Filtering a key-nodup list down to a nodup set of present keys keeps
exactly one element per key: its key image is a permutation of the key
set. -/
theorem filter_map_mem_perm {α β : Type} [DecidableEq β] (f : α → β) :
    ∀ (l : List α) (ks : List β), (l.map f).Nodup → ks.Nodup →
      (∀ k ∈ ks, k ∈ l.map f) →
      ((l.filter (fun a => decide (f a ∈ ks))).map f).Perm ks := by
  intro l
  induction l with
  | nil =>
    intro ks _ _ hsub
    have hks : ks = [] := List.eq_nil_iff_forall_not_mem.mpr
      (fun k hk => by simpa using hsub k hk)
    subst hks
    simp
  | cons a t ih =>
    intro ks hnd hknd hsub
    rw [List.map_cons, List.nodup_cons] at hnd
    by_cases hmem : f a ∈ ks
    · have hperm := List.perm_cons_erase hmem
      have hfe : t.filter (fun x => decide (f x ∈ ks)) =
          t.filter (fun x => decide (f x ∈ ks.erase (f a))) := by
        apply List.filter_congr
        intro x hx
        have hxa : f x ≠ f a := by
          intro hEq
          exact hnd.1 (hEq ▸ List.mem_map_of_mem f hx)
        simp [List.Nodup.mem_erase_iff hknd, hxa]
      have hsub2 : ∀ k ∈ ks.erase (f a), k ∈ t.map f := by
        intro k hk
        rcases (List.Nodup.mem_erase_iff hknd).mp hk with ⟨hne, hks⟩
        have := hsub k hks
        rw [List.map_cons, List.mem_cons] at this
        rcases this with h | h
        · exact absurd h hne
        · exact h
      have hfc : (a :: t).filter (fun x => decide (f x ∈ ks)) =
          a :: t.filter (fun x => decide (f x ∈ ks)) := by
        rw [List.filter_cons, if_pos (by simpa using hmem)]
      rw [hfc, List.map_cons, hfe]
      exact List.Perm.trans
        (List.Perm.cons (f a) (ih (ks.erase (f a)) hnd.2 (List.Nodup.erase _ hknd) hsub2))
        hperm.symm
    · have hfc : (a :: t).filter (fun x => decide (f x ∈ ks)) =
          t.filter (fun x => decide (f x ∈ ks)) := by
        rw [List.filter_cons, if_neg (by simpa using hmem)]
      rw [hfc]
      apply ih ks hnd.2 hknd
      intro k hk
      have := hsub k hk
      rw [List.map_cons, List.mem_cons] at this
      rcases this with h | h
      · exact absurd (h ▸ hk) hmem
      · exact h

/-- `cleanup_memories` is a no-op on a store that fits. -/
theorem cleanup_memories_noop {maxCount : Nat} {store : List MemRecord}
    (h : store.length ≤ maxCount) : cleanup_memories maxCount store = store := by
  unfold cleanup_memories
  rw [if_pos h]

/-- Behavior of `cleanup_memories` on an over-full store with distinct
record ids: exactly the excess is deleted, survivors are store records, and
every deleted record's key is less-or-equal (in the sort preorder) to every
survivor's key. -/
theorem cleanup_memories_spec (maxCount : Nat) (store : List MemRecord)
    (hids : (store.map MemRecord.id).Nodup) (hgt : maxCount < store.length) :
    (cleanup_memories maxCount store).length = maxCount ∧
    (∀ r ∈ cleanup_memories maxCount store, r ∈ store) ∧
    (∀ r ∈ store, r ∉ cleanup_memories maxCount store →
      ∀ r2 ∈ cleanup_memories maxCount store, infoLe (memInfo r) (memInfo r2)) := by
  have hnle : ¬ store.length ≤ maxCount := not_le.mpr hgt
  set si := List.insertionSort infoLe (store.map memInfo) with hsi
  set d := store.length - maxCount with hd
  set dels := (si.take d).map MemInfo.id with hdels
  have hclean : cleanup_memories maxCount store =
      store.filter (fun r => decide (¬ r.id ∈ dels)) := by
    unfold cleanup_memories
    rw [if_neg hnle]
  have hsiperm : si.Perm (store.map memInfo) := List.perm_insertionSort _ _
  have hsilen : si.length = store.length := by
    rw [hsiperm.length_eq, List.length_map]
  have hidmap : (store.map memInfo).map MemInfo.id = store.map MemRecord.id := by
    rw [List.map_map]
    rfl
  have hsiids : (si.map MemInfo.id).Perm (store.map MemRecord.id) := by
    rw [← hidmap]
    exact hsiperm.map _
  have hsiidnd : (si.map MemInfo.id).Nodup := hsiids.nodup_iff.mpr hids
  have hdle : d ≤ si.length := by
    rw [hsilen]
    omega
  have hdelslen : dels.length = d := by
    rw [hdels, List.length_map, List.length_take, inf_eq_left.mpr hdle]
  have hdelsnd : dels.Nodup := by
    have hsub : ((si.take d).map MemInfo.id).Sublist (si.map MemInfo.id) :=
      List.Sublist.map MemInfo.id (List.take_sublist d si)
    exact List.Nodup.sublist hsub hsiidnd
  have hdelssub : ∀ k ∈ dels, k ∈ store.map MemRecord.id := by
    intro k hk
    rcases List.mem_map.mp hk with ⟨m, hm, hmk⟩
    have h1 : m ∈ si := List.mem_of_mem_take hm
    have h2 : m ∈ store.map memInfo := hsiperm.mem_iff.mp h1
    subst hmk
    rw [← hidmap]
    exact List.mem_map_of_mem MemInfo.id h2
  have hdelperm : ((store.filter (fun r => decide (r.id ∈ dels))).map MemRecord.id).Perm dels :=
    filter_map_mem_perm MemRecord.id store dels hids hdelsnd hdelssub
  have hdellen : (store.filter (fun r => decide (r.id ∈ dels))).length = d := by
    have hl := hdelperm.length_eq
    rw [List.length_map] at hl
    rw [hl, hdelslen]
  have hsplit := List.filter_append_perm (fun r => decide (r.id ∈ dels)) store
  have hkeptpred : store.filter (fun x => !(decide (x.id ∈ dels))) =
      store.filter (fun r => decide (¬ r.id ∈ dels)) := by
    apply List.filter_congr
    intro x _
    simp
  refine ⟨?_, ?_, ?_⟩
  · have hl := hsplit.length_eq
    rw [List.length_append, hdellen, hkeptpred] at hl
    rw [hclean]
    omega
  · intro r hr
    rw [hclean] at hr
    exact List.mem_of_mem_filter hr
  · have hsorted : List.Pairwise infoLe si :=
      List.sorted_insertionSort infoLe (store.map memInfo)
    have hpair : ∀ a ∈ si.take d, ∀ b ∈ si.drop d, infoLe a b := by
      rw [← List.take_append_drop d si] at hsorted
      exact (List.pairwise_append.mp hsorted).2.2
    have hnd2 : ((store.map memInfo).map MemInfo.id).Nodup := by
      rw [hidmap]
      exact hids
    intro r hr hnotk r2 hr2
    have hrid : r.id ∈ dels := by
      by_contra hno
      apply hnotk
      rw [hclean]
      exact List.mem_filter.mpr ⟨hr, by simpa using hno⟩
    rcases List.mem_map.mp hrid with ⟨m, hm, hmid⟩
    have hmsi : m ∈ si := List.mem_of_mem_take hm
    have hmstore : m ∈ store.map memInfo := hsiperm.mem_iff.mp hmsi
    have hrinf : memInfo r ∈ store.map memInfo := List.mem_map_of_mem memInfo hr
    have hmeq : m = memInfo r :=
      List.inj_on_of_nodup_map hnd2 hmstore hrinf hmid
    have hr2store : r2 ∈ store := by
      rw [hclean] at hr2
      exact List.mem_of_mem_filter hr2
    have hr2nid : ¬ r2.id ∈ dels := by
      rw [hclean] at hr2
      have := (List.mem_filter.mp hr2).2
      simpa using this
    have hr2si : memInfo r2 ∈ si :=
      hsiperm.mem_iff.mpr (List.mem_map_of_mem memInfo hr2store)
    have hr2drop : memInfo r2 ∈ si.drop d := by
      rw [← List.take_append_drop d si, List.mem_append] at hr2si
      rcases hr2si with h | h
      · exact absurd (List.mem_map_of_mem MemInfo.id h) hr2nid
      · exact h
    exact hpair (memInfo r) (hmeq ▸ hm) (memInfo r2) hr2drop

-- ============================================================
-- Claim C3: cleanup deletes exactly the deficit, smallest keys first
-- ============================================================

/-- C3: with distinct record ids, `cleanup_memories(max_count)` deletes
nothing when the store fits; otherwise the surviving store has exactly
`min(original_size, max_count)` records, all survivors are original
records, and (when the `(importance, created_at)` keys are pairwise
distinct) every deleted record's key is strictly below every survivor's
key, so the retained set is exactly the `max_count` records with the
largest keys; an immediate re-invocation is a no-op. -/
theorem C3_cleanup_memories (maxCount : Nat) (store : List MemRecord)
    (hids : (store.map MemRecord.id).Nodup) :
    (store.length ≤ maxCount → cleanup_memories maxCount store = store) ∧
    (cleanup_memories maxCount store).length = min store.length maxCount ∧
    (∀ r ∈ cleanup_memories maxCount store, r ∈ store) ∧
    ((store.map recKey).Nodup →
      ∀ r ∈ store, r ∉ cleanup_memories maxCount store →
        ∀ r2 ∈ cleanup_memories maxCount store, keyLt (recKey r) (recKey r2)) ∧
    cleanup_memories maxCount (cleanup_memories maxCount store) =
      cleanup_memories maxCount store := by
  by_cases h : store.length ≤ maxCount
  · have he := cleanup_memories_noop h
    refine ⟨fun _ => he, ?_, ?_, ?_, ?_⟩
    · rw [he, min_eq_left h]
    · intro r hr
      rw [he] at hr
      exact hr
    · intro _ r hr hnot r2 _
      rw [he] at hnot
      exact absurd hr hnot
    · rw [he]
      exact he
  · have hgt : maxCount < store.length := not_le.mp h
    obtain ⟨hlen, hmem, hord⟩ := cleanup_memories_spec maxCount store hids hgt
    refine ⟨fun hle => absurd hle h, ?_, hmem, ?_, ?_⟩
    · rw [hlen, min_eq_right (le_of_lt hgt)]
    · intro hkeys r hr hnot r2 hr2
      have hle := hord r hr hnot r2 hr2
      have hne : r ≠ r2 := by
        intro hEq
        exact hnot (hEq ▸ hr2)
      have hkne : recKey r ≠ recKey r2 := by
        intro hEq
        exact hne (List.inj_on_of_nodup_map hkeys hr (hmem r2 hr2) hEq)
      unfold infoLe at hle
      unfold keyLt
      rcases hle with h1 | ⟨h1, h1s⟩
      · exact Or.inl h1
      · rcases lt_or_eq_of_le h1s with h2 | h2
        · exact Or.inr ⟨h1, h2⟩
        · exact absurd (Prod.ext h1 (String.ext h2)) hkne
    · exact cleanup_memories_noop (by rw [hlen])

/-- A concrete three-record store with distinct ids and distinct keys. -/
def cleanupStore : List MemRecord :=
  [⟨"mem_1.0", "doc one", [("importance", Val.vInt 5),
      ("created_at", Val.vStr "2024-01-01T00:00:00")]⟩,
   ⟨"mem_2.0", "doc two", [("importance", Val.vInt 1),
      ("created_at", Val.vStr "2024-01-02T00:00:00")]⟩,
   ⟨"mem_3.0", "doc three", [("importance", Val.vInt 3),
      ("created_at", Val.vStr "2024-01-03T00:00:00")]⟩]

/-- Witness for C3 at a concrete over-full store and a concrete fitting
bound. -/
theorem C3_cleanup_memories_witness :
    (cleanup_memories 2 cleanupStore).length = min 3 2 ∧
    cleanup_memories 5 cleanupStore = cleanupStore := by
  constructor
  · exact (C3_cleanup_memories 2 cleanupStore (by decide)).2.1
  · exact (C3_cleanup_memories 5 cleanupStore (by decide)).1 (by decide)

-- ============================================================
-- Tool node (`src/lang_graph/nodes.py`, lines 173-217)
-- ============================================================

/-- The risky tools requiring human confirmation (`nodes.py`, line 56). -/
def DANGEROUS_TOOLS : List String := ["google_search", "write_memory"]

/-- A queued tool call of one turn. -/
structure ToolCall : Type where
  id : String
  name : String
  arguments : Args

/-- A tool-result message appended by `tool_node`. -/
structure ToolMsg : Type where
  role : String
  tool_call_id : String
  content : Val

/-- The cancellation result message appended on a denied confirmation. -/
def cancelMsg (tc : ToolCall) : ToolMsg :=
  ⟨"tool", tc.id, Val.vDict [("status", Val.vStr "cancelled"),
    ("reason", Val.vStr "사용자가 취소함")]⟩

/-- The result message carrying a dispatched observation. -/
def resultMsg (tc : ToolCall) (v : Val) : ToolMsg :=
  ⟨"tool", tc.id, v⟩

/-- The per-call loop of `tool_node`: a risky call whose resume token
(`confirm`, the value the `interrupt` resumes with) differs from `"y"` is
cancelled without dispatching; every other call is dispatched through
`registryCall` (whose unknown-name failure propagates).  The second
component instruments the calls actually handed to the registry. -/
def tool_node_go (reg : Registry) (confirm : ToolCall → String) :
    List ToolCall → Except String (List ToolMsg × List ToolCall)
  | [] => Except.ok ([], [])
  | tc :: rest =>
    if tc.name ∈ DANGEROUS_TOOLS ∧ confirm tc ≠ "y" then
      match tool_node_go reg confirm rest with
      | Except.error e => Except.error e
      | Except.ok (ms, inv) => Except.ok (cancelMsg tc :: ms, inv)
    else
      match registryCall reg tc.name tc.arguments with
      | Except.error e => Except.error e
      | Except.ok v =>
        match tool_node_go reg confirm rest with
        | Except.error e => Except.error e
        | Except.ok (ms, inv) => Except.ok (resultMsg tc v :: ms, tc :: inv)

/-- `tool_node` itself: an absent or empty queue yields no messages. -/
def tool_node (reg : Registry) (confirm : ToolCall → String)
    (toolCalls : Option (List ToolCall)) : Except String (List ToolMsg × List ToolCall) :=
  tool_node_go reg confirm (toolCalls.getD [])

/-- A known tool name always dispatches to a non-raising result. -/
theorem registryCall_ok_of_isSome {reg : Registry} {name : String} {args : Args}
    (h : (registryGet reg name).isSome) :
    ∃ v, registryCall reg name args = Except.ok v := by
  rcases hspec : registryGet reg name with _ | spec
  · rw [hspec] at h
    simp at h
  · have hcall : registryCall reg name args =
        match spec.handler args with
        | HandlerOutcome.ok v => Except.ok v
        | HandlerOutcome.vErr ds =>
          Except.ok (Val.vDict [("error", Val.vStr "validation_error"),
                                ("details", Val.vList ds)])
        | HandlerOutcome.rErr m =>
          Except.ok (Val.vDict [("error", Val.vStr "runtime_error"),
                                ("details", Val.vStr m)]) := by
      unfold registryCall
      rw [hspec]
    cases hout : spec.handler args with
    | ok v => exact ⟨v, by rw [hcall, hout]⟩
    | vErr ds => exact ⟨_, by rw [hcall, hout]⟩
    | rErr m => exact ⟨_, by rw [hcall, hout]⟩

-- ============================================================
-- Claim C1: risky calls execute only on the "y" token
-- ============================================================

/-- C1: for a risky queued call, any resume token other than `"y"` appends
exactly one cancellation message keyed by that call's id, hands nothing to
the registry for that call, and continues with the remaining queue; the
token `"y"` dispatches the call exactly once and appends its result
message. -/
theorem C1_risky_call_confirmation (reg : Registry) (confirm : ToolCall → String)
    (tc : ToolCall) (rest : List ToolCall) (hd : tc.name ∈ DANGEROUS_TOOLS) :
    (confirm tc ≠ "y" →
      tool_node_go reg confirm (tc :: rest) =
        (tool_node_go reg confirm rest).map (fun p => (cancelMsg tc :: p.1, p.2))) ∧
    (confirm tc = "y" →
      tool_node_go reg confirm (tc :: rest) =
        (registryCall reg tc.name tc.arguments).bind (fun v =>
          (tool_node_go reg confirm rest).map
            (fun p => (resultMsg tc v :: p.1, tc :: p.2)))) := by
  constructor
  · intro hny
    simp only [tool_node_go, if_pos (And.intro hd hny)]
    cases htail : tool_node_go reg confirm rest with
    | error e => rfl
    | ok p => rfl
  · intro hy
    have hnc : ¬ (tc.name ∈ DANGEROUS_TOOLS ∧ confirm tc ≠ "y") :=
      fun hc => hc.2 hy
    simp only [tool_node_go, if_neg hnc]
    cases hcall : registryCall reg tc.name tc.arguments with
    | error e => rfl
    | ok v =>
      cases htail : tool_node_go reg confirm rest with
      | error e => rfl
      | ok p => rfl

/-- A registry carrying only the risky `google_search` tool. -/
def searchRegistry : Registry :=
  [⟨"google_search", fun _ => HandlerOutcome.ok (Val.vDict [("results", Val.vList [])])⟩]

/-- Witness for C1: a denied risky call is cancelled without consulting the
registry (here the registry does not even know the tool), and an approved
risky call is dispatched exactly once. -/
theorem C1_risky_call_confirmation_witness :
    tool_node_go sampleRegistry (fun _ => "n") [⟨"call_1", "google_search", []⟩] =
      Except.ok ([cancelMsg ⟨"call_1", "google_search", []⟩], []) ∧
    tool_node_go searchRegistry (fun _ => "y") [⟨"call_1", "google_search", []⟩] =
      Except.ok ([resultMsg ⟨"call_1", "google_search", []⟩
        (Val.vDict [("results", Val.vList [])])],
        [⟨"call_1", "google_search", []⟩]) := by
  constructor
  · have h := (C1_risky_call_confirmation sampleRegistry (fun _ => "n")
      ⟨"call_1", "google_search", []⟩ [] (by decide)).1 (by decide)
    rw [h]
    rfl
  · have h := (C1_risky_call_confirmation searchRegistry (fun _ => "y")
      ⟨"call_1", "google_search", []⟩ [] (by decide)).2 (by decide)
    rw [h]
    rfl

-- ============================================================
-- Claim C2: one result message per queued call, in order
-- ============================================================

/-- C2: when every queued name is registered, processing a queue of N calls
produces exactly N tool-result messages whose ids are, in order, the queued
call ids — whether each call was dispatched or cancelled. -/
theorem C2_one_result_per_call (reg : Registry) (confirm : ToolCall → String)
    (tcs : List ToolCall)
    (hreg : ∀ tc ∈ tcs, (registryGet reg tc.name).isSome) :
    ∃ ms inv, tool_node_go reg confirm tcs = Except.ok (ms, inv) ∧
      ms.map ToolMsg.tool_call_id = tcs.map ToolCall.id := by
  induction tcs with
  | nil => exact ⟨[], [], rfl, rfl⟩
  | cons tc rest ih =>
    obtain ⟨ms, inv, hok, hmap⟩ := ih (fun t ht => hreg t (List.mem_cons_of_mem tc ht))
    by_cases hc : tc.name ∈ DANGEROUS_TOOLS ∧ confirm tc ≠ "y"
    · refine ⟨cancelMsg tc :: ms, inv, ?_, ?_⟩
      · simp only [tool_node_go, if_pos hc, hok]
      · simp [cancelMsg, hmap]
    · have hsome : (registryGet reg tc.name).isSome := hreg tc (List.mem_cons_self tc rest)
      obtain ⟨v, hv⟩ := @registryCall_ok_of_isSome reg tc.name tc.arguments hsome
      refine ⟨resultMsg tc v :: ms, tc :: inv, ?_, ?_⟩
      · simp only [tool_node_go, if_neg hc, hv, hok]
      · simp [resultMsg, hmap]

/-- Witness for C2 on a concrete two-call queue over the sample registry. -/
theorem C2_one_result_per_call_witness :
    ∃ ms inv,
      tool_node_go sampleRegistry (fun _ => "y")
        [⟨"c1", "get_time", [("timezone", Val.vStr "Asia/Seoul")]⟩,
         ⟨"c2", "get_time", []⟩] = Except.ok (ms, inv) ∧
      ms.map ToolMsg.tool_call_id = ["c1", "c2"] := by
  exact C2_one_result_per_call sampleRegistry (fun _ => "y")
    [⟨"c1", "get_time", [("timezone", Val.vStr "Asia/Seoul")]⟩,
     ⟨"c2", "get_time", []⟩] (by decide)

-- ============================================================
-- Agent loop (`run_example.py`, lines 152-229)
-- ============================================================

/-- A reasoning-capability response: content plus ordered tool calls
(an empty list models a response without tool calls). -/
structure LLMResp : Type where
  content : String
  tool_calls : List ToolCall

/-- Conversation messages as accumulated by `run_react_agent`. -/
inductive Msg : Type where
  | system : String → Msg
  | user : String → Msg
  | assistant : LLMResp → Msg
  | tool : String → Val → Msg

/-- Stand-in for the system prompt text (exact prompt content is an
excluded external per the specification scope). -/
def SYSTEM_PROMPT : String := "SYSTEM_PROMPT"

/-- The sentinel failure answer set when `max_cycles` is exhausted. -/
def MAX_STEPS_EXCEEDED : String := "최대 단계 초과"

/-- The `Trace` dataclass: one tool invocation of the trajectory. -/
structure Trace : Type where
  tool_name : String
  tool_args : Args
  observation : Val

/-- Observable outcome of one run, instrumented: the trajectory fields,
the `(question, final_answer)` pairs handed to `extract_and_save_memory`,
the number of reasoning-capability invocations, and which `return` fired
(`answered = true` for the no-tool-calls return, `false` for the
cycle-limit fallthrough). -/
structure RunOut : Type where
  final_answer : String
  traces : List Trace
  reflections : List (String × String)
  llmCalls : Nat
  answered : Bool

/-- The tool-result messages appended for the tool calls of one cycle. -/
def toolMsgsOf (call : String → Args → Val) (tcs : List ToolCall) : List Msg :=
  tcs.map (fun tc => Msg.tool tc.id (call tc.name tc.arguments))

/-- The trace entries appended for the tool calls of one cycle. -/
def tracesOf (call : String → Args → Val) (tcs : List ToolCall) : List Trace :=
  tcs.map (fun tc => ⟨tc.name, tc.arguments, call tc.name tc.arguments⟩)

/-- The `for cycle in range(max_cycles)` loop of `run_react_agent`:
per cycle, invoke the reasoning capability on the accumulated messages; a
response without tool calls sets the final answer, triggers reflection once
and returns; otherwise every tool call is dispatched in order (`call`
models `registry.call` for registered names), the assistant and tool
messages are appended, and the loop continues; an exhausted range yields
the sentinel answer with no reflection. -/
def runLoop (llm : List Msg → LLMResp) (call : String → Args → Val)
    (question : String) : Nat → List Msg → RunOut
  | 0, _ => ⟨MAX_STEPS_EXCEEDED, [], [], 0, false⟩
  | fuel + 1, msgs =>
    let resp := llm msgs
    if resp.tool_calls.isEmpty then
      ⟨resp.content, [], [(question, resp.content)], 1, true⟩
    else
      let r := runLoop llm call question fuel
        (msgs ++ Msg.assistant resp :: toolMsgsOf call resp.tool_calls)
      ⟨r.final_answer, tracesOf call resp.tool_calls ++ r.traces,
        r.reflections, r.llmCalls + 1, r.answered⟩

/-- `run_react_agent(question, max_cycles)`. -/
def run_react_agent (llm : List Msg → LLMResp) (call : String → Args → Val)
    (question : String) (maxCycles : Nat) : RunOut :=
  runLoop llm call question maxCycles [Msg.system SYSTEM_PROMPT, Msg.user question]

/-- One-step unfolding of `runLoop`. -/
theorem runLoop_succ (llm : List Msg → LLMResp) (call : String → Args → Val)
    (question : String) (fuel : Nat) (msgs : List Msg) :
    runLoop llm call question (fuel + 1) msgs =
      if (llm msgs).tool_calls.isEmpty then
        ⟨(llm msgs).content, [], [(question, (llm msgs).content)], 1, true⟩
      else
        ⟨(runLoop llm call question fuel
            (msgs ++ Msg.assistant (llm msgs) :: toolMsgsOf call (llm msgs).tool_calls)).final_answer,
         tracesOf call (llm msgs).tool_calls ++
           (runLoop llm call question fuel
             (msgs ++ Msg.assistant (llm msgs) :: toolMsgsOf call (llm msgs).tool_calls)).traces,
         (runLoop llm call question fuel
           (msgs ++ Msg.assistant (llm msgs) :: toolMsgsOf call (llm msgs).tool_calls)).reflections,
         (runLoop llm call question fuel
           (msgs ++ Msg.assistant (llm msgs) :: toolMsgsOf call (llm msgs).tool_calls)).llmCalls + 1,
         (runLoop llm call question fuel
           (msgs ++ Msg.assistant (llm msgs) :: toolMsgsOf call (llm msgs).tool_calls)).answered⟩ := rfl

/-- Loop invariant for the cycle bound and the final answer. -/
theorem runLoop_bounded (llm : List Msg → LLMResp) (call : String → Args → Val)
    (question : String) : ∀ (fuel : Nat) (msgs : List Msg),
    (runLoop llm call question fuel msgs).llmCalls ≤ fuel ∧
    ((∃ ms, (llm ms).tool_calls = [] ∧
        (runLoop llm call question fuel msgs).final_answer = (llm ms).content) ∨
      ((runLoop llm call question fuel msgs).final_answer = MAX_STEPS_EXCEEDED ∧
        (runLoop llm call question fuel msgs).llmCalls = fuel)) := by
  intro fuel
  induction fuel with
  | zero => exact fun msgs => ⟨Nat.le_refl 0, Or.inr ⟨rfl, rfl⟩⟩
  | succ f ih =>
    intro msgs
    rw [runLoop_succ]
    by_cases hresp : (llm msgs).tool_calls.isEmpty
    · rw [if_pos hresp]
      refine ⟨Nat.succ_le_succ (Nat.zero_le f), Or.inl ⟨msgs, ?_, rfl⟩⟩
      exact List.isEmpty_iff.mp hresp
    · rw [if_neg hresp]
      obtain ⟨hle, hdisj⟩ := ih
        (msgs ++ Msg.assistant (llm msgs) :: toolMsgsOf call (llm msgs).tool_calls)
      refine ⟨Nat.succ_le_succ hle, ?_⟩
      rcases hdisj with ⟨ms, h1, h2⟩ | ⟨hfin, hcnt⟩
      · exact Or.inl ⟨ms, h1, h2⟩
      · exact Or.inr ⟨hfin, by rw [hcnt]⟩

/-- Loop invariant for the reflection triggers. -/
theorem runLoop_reflections (llm : List Msg → LLMResp) (call : String → Args → Val)
    (question : String) : ∀ (fuel : Nat) (msgs : List Msg),
    (runLoop llm call question fuel msgs).reflections =
      (if (runLoop llm call question fuel msgs).answered then
        [(question, (runLoop llm call question fuel msgs).final_answer)] else []) ∧
    ((runLoop llm call question fuel msgs).answered = false →
      (runLoop llm call question fuel msgs).final_answer = MAX_STEPS_EXCEEDED) := by
  intro fuel
  induction fuel with
  | zero => exact fun msgs => ⟨rfl, fun _ => rfl⟩
  | succ f ih =>
    intro msgs
    rw [runLoop_succ]
    by_cases hresp : (llm msgs).tool_calls.isEmpty
    · rw [if_pos hresp]
      exact ⟨rfl, fun h => by cases h⟩
    · rw [if_neg hresp]
      exact ih (msgs ++ Msg.assistant (llm msgs) :: toolMsgsOf call (llm msgs).tool_calls)

-- ============================================================
-- Claim C6: the orchestrator loop is bounded by max_cycles
-- ============================================================

/-- C6: for every reasoning behavior, the loop performs at most
`max_cycles` reasoning invocations; the final answer is either the content
of a reasoning response that carried no tool calls, or — after exactly
`max_cycles` tool-calling cycles — the sentinel failure answer
`"최대 단계 초과"` (never an exception or an unbounded loop: the run is a
total function of its inputs). -/
theorem C6_run_react_agent_bounded (llm : List Msg → LLMResp)
    (call : String → Args → Val) (question : String) (maxCycles : Nat) :
    (run_react_agent llm call question maxCycles).llmCalls ≤ maxCycles ∧
    ((∃ ms, (llm ms).tool_calls = [] ∧
        (run_react_agent llm call question maxCycles).final_answer = (llm ms).content) ∨
      ((run_react_agent llm call question maxCycles).final_answer = MAX_STEPS_EXCEEDED ∧
        (run_react_agent llm call question maxCycles).llmCalls = maxCycles)) :=
  runLoop_bounded llm call question maxCycles
    [Msg.system SYSTEM_PROMPT, Msg.user question]

-- ============================================================
-- Claim C7: when reflection is triggered
-- ============================================================

/-- A reasoning behavior that requests a tool call on every cycle. -/
def llmAlwaysCalling : List Msg → LLMResp :=
  fun _ => ⟨"", [⟨"c1", "get_time", [("timezone", Val.vStr "Asia/Seoul")]⟩]⟩

/-- Counterexample to C7 as stated: a run that completes because
`max_cycles` is exhausted (final answer is the sentinel) triggers the
Reflection Engine **zero** times, not exactly once —
`extract_and_save_memory` is only called on the no-tool-calls return path
(`run_example.py` line 189), not on the fallthrough (lines 227-229). -/
theorem C7_reflection_once_cex :
    (run_react_agent llmAlwaysCalling (fun _ _ => Val.vNull) "질문" 1).reflections = [] ∧
    (run_react_agent llmAlwaysCalling (fun _ _ => Val.vNull) "질문" 1).final_answer =
      MAX_STEPS_EXCEEDED := ⟨rfl, rfl⟩

/-- C7 as amended: the Reflection Engine is triggered exactly once, on the
run's `(question, final_answer)` pair, when the run reaches its terminal
state because the reasoning capability returned no tool calls; a run that
terminates by exhausting `max_cycles` triggers it zero times (and carries
the sentinel answer). -/
theorem C7_reflection_once_amended (llm : List Msg → LLMResp)
    (call : String → Args → Val) (question : String) (maxCycles : Nat) :
    (run_react_agent llm call question maxCycles).reflections =
      (if (run_react_agent llm call question maxCycles).answered then
        [(question, (run_react_agent llm call question maxCycles).final_answer)]
      else []) ∧
    ((run_react_agent llm call question maxCycles).answered = false →
      (run_react_agent llm call question maxCycles).final_answer = MAX_STEPS_EXCEEDED) :=
  runLoop_reflections llm call question maxCycles
    [Msg.system SYSTEM_PROMPT, Msg.user question]

/-- Witness for the amended C7 at a concrete exhausted run. -/
theorem C7_reflection_once_amended_witness :
    (run_react_agent llmAlwaysCalling (fun _ _ => Val.vNull) "다른 질문" 2).final_answer =
      MAX_STEPS_EXCEEDED := by
  exact (C7_reflection_once_amended llmAlwaysCalling (fun _ _ => Val.vNull)
    "다른 질문" 2).2 rfl

-- ============================================================
-- Reflection Engine (`src/lang_graph/memory.py` lines 53-79,
-- `run_example.py` lines 125-146)
-- ============================================================

/-- The snippet handed to the judgment capability. -/
def snippetOf (question answer : String) : String :=
  "User: " ++ question ++ "\nAssistant: " ++ answer

/-- The `write_memory` argument record built from a parsed decision dict:
`decision["content"]`, `decision["memory_type"]`, `decision["importance"]`
(a missing key raises `KeyError`, hence `none`), and
`decision.get("tags", [])`. -/
def writeArgs (d : List (String × Val)) : Option Args :=
  match dictGet d "content", dictGet d "memory_type", dictGet d "importance" with
  | some c, some mt, some imp =>
    some [("content", c), ("memory_type", mt), ("importance", imp),
          ("tags", dictGetD d "tags" (Val.vList []))]
  | _, _, _ => none

/-- `extract_and_save_memory` of `src/lang_graph/memory.py`: the whole
decision handling sits inside a bare `try/except: pass`, so it never
raises.  `judge` is the LLM judgment capability and `parse` models
`json.loads` (`none` = `JSONDecodeError`).  The result lists the argument
records handed to `registry.call("write_memory", ...)`. -/
def extract_and_save_memory_lg (parse : String → Option Val)
    (judge : String → String) (question answer : String) : List Args :=
  match parse (judge (snippetOf question answer)) with
  | none => []
  | some (Val.vDict d) =>
    if pyTruthy (dictGet d "should_write") then
      match writeArgs d with
      | some args => [args]
      | none => []
    else []
  | some _ => []

/-- `extract_and_save_memory` of `run_example.py`: the same pipeline with
no `try`, so an unparseable response, a non-dict response or a missing
required key raises (propagates out of the run loop). -/
def extract_and_save_memory_re (parse : String → Option Val)
    (judge : String → String) (question answer : String) :
    Except String (List Args) :=
  match parse (judge (snippetOf question answer)) with
  | none => Except.error "json.decoder.JSONDecodeError"
  | some (Val.vDict d) =>
    if pyTruthy (dictGet d "should_write") then
      match writeArgs d with
      | some args => Except.ok [args]
      | none => Except.error "KeyError"
    else Except.ok []
  | some _ => Except.error "AttributeError"

-- ============================================================
-- Claim C8: unparseable judgment responses
-- ============================================================

/-- Counterexample to C8 as stated: in the `run_example.py` variant of
`extract_and_save_memory` — one of the two reflection implementations the
claim covers — a judgment response that is not parseable as the decision
schema **raises** (`json.loads` is not guarded there), instead of being
skipped silently. -/
theorem C8_reflection_skip_cex :
    extract_and_save_memory_re (fun _ => none) (fun _ => "oops") "질문" "답변" =
      Except.error "json.decoder.JSONDecodeError" := rfl

/-- C8 as amended: the `lang_graph` Reflection Engine
(`src/lang_graph/memory.py`) skips silently and writes nothing on any
response that is unparseable, not a dict, or parseable with a falsy
`should_write`; the `run_example.py` variant also writes nothing in those
cases, but it propagates an exception on an unparseable response rather
than skipping silently (on a falsy `should_write` it, too, returns
normally without writing). -/
theorem C8_reflection_skip_amended (parse : String → Option Val)
    (judge : String → String) (q a : String) :
    (parse (judge (snippetOf q a)) = none →
      extract_and_save_memory_lg parse judge q a = []) ∧
    (∀ d, parse (judge (snippetOf q a)) = some (Val.vDict d) →
      pyTruthy (dictGet d "should_write") = false →
      extract_and_save_memory_lg parse judge q a = [] ∧
      extract_and_save_memory_re parse judge q a = Except.ok []) ∧
    (∀ v, parse (judge (snippetOf q a)) = some v → (∀ d, v ≠ Val.vDict d) →
      extract_and_save_memory_lg parse judge q a = []) := by
  refine ⟨?_, ?_, ?_⟩
  · intro h
    unfold extract_and_save_memory_lg
    rw [h]
  · intro d hd hfalse
    constructor
    · unfold extract_and_save_memory_lg
      rw [hd]
      simp [hfalse]
    · unfold extract_and_save_memory_re
      rw [hd]
      simp [hfalse]
  · intro v hv hnd
    unfold extract_and_save_memory_lg
    rw [hv]
    cases v with
    | vDict d => exact absurd rfl (hnd d)
    | vNull => rfl
    | vBool b => rfl
    | vInt n => rfl
    | vStr s => rfl
    | vList l => rfl

/-- Witness for the amended C8 at concrete parse failures and a concrete
falsy decision. -/
theorem C8_reflection_skip_amended_witness :
    extract_and_save_memory_lg (fun _ => none) (fun _ => "oops") "질문" "답변" = [] ∧
    extract_and_save_memory_re
      (fun _ => some (Val.vDict [("should_write", Val.vBool false)]))
      (fun _ => "judged") "질문" "답변" = Except.ok [] := by
  constructor
  · exact (C8_reflection_skip_amended (fun _ => none) (fun _ => "oops")
      "질문" "답변").1 rfl
  · exact ((C8_reflection_skip_amended
      (fun _ => some (Val.vDict [("should_write", Val.vBool false)]))
      (fun _ => "judged") "질문" "답변").2.1
      [("should_write", Val.vBool false)] rfl (by decide)).2
